import Mathlib

/-!
Verification of `aem-cwv-helper.js`, a browser-side cooperative-yield scheduling
helper.  The JavaScript source is shallowly embedded: time values are `Nat`
(milliseconds), the JavaScript `Infinity` is the `⊤` of `WithTop ℕ`, callbacks
are defunctionalised, promise resolution is modelled by an explicit
resolved-once flag or set, and asynchronous interleavings are modelled as
explicit event sequences applied to explicit state.
-/

namespace AemCwv

/-! ### Chunked iteration: `splitLongIteration(items, fn, limit = 48)`

The source (src/aem-cwv-helper.js lines 147-159):

```js
export async function splitLongIteration(items, fn, limit = 48) {
  let deadline = performance.now() + limit;
  for (const item of items) {
    if (performance.now() >= deadline) {
      await splitLongTask();
      deadline = performance.now() + limit; // update deadline
    }
    fn(item);
  }
}
```

`performance.now()` is modelled by an oracle `clock : ℕ → ℕ` giving the value
returned by the q-th query (`performance.now()` is specified by the browser to
be monotone non-decreasing, which is the `Monotone clock` hypothesis where it
is needed).  `limit` lives in `WithTop ℕ` so that `limit = ⊤` models
`limit = Infinity`.  The callback may throw, modelled by `fn : α → Except ε Unit`;
a thrown error aborts the loop and is propagated (second component).
The observable behaviour is the trace of yield points and callback invocations.
-/

/-- One observable event of `splitLongIteration`: a yield point
(`await splitLongTask()`) or a callback invocation `fn(item)`. -/
inductive IterEvent (α : Type) where
  | yieldEv : IterEvent α
  | callEv : α → IterEvent α
deriving DecidableEq, Repr

/-- The `for (const item of items)` loop of `splitLongIteration`.  `q` is the
index of the next `performance.now()` query; `deadline` is the current value of
the `deadline` variable. -/
def iterLoop (clock : ℕ → ℕ) (fn : α → Except ε Unit) (limit : WithTop ℕ) :
    List α → ℕ → WithTop ℕ → List (IterEvent α) × Option ε
  | [], _, _ => ([], none)
  | item :: rest, q, deadline =>
    if deadline ≤ (clock q : WithTop ℕ) then
      match fn item with
      | .error e => ([.yieldEv, .callEv item], some e)
      | .ok _ =>
        let r := iterLoop clock fn limit rest (q + 2) ((clock (q + 1) : WithTop ℕ) + limit)
        (.yieldEv :: .callEv item :: r.1, r.2)
    else
      match fn item with
      | .error e => ([.callEv item], some e)
      | .ok _ =>
        let r := iterLoop clock fn limit rest (q + 1) deadline
        (.callEv item :: r.1, r.2)

/-- `splitLongIteration(items, fn, limit)`: the initial deadline is
`performance.now() + limit` (query 0), then the loop runs. -/
def splitLongIteration (clock : ℕ → ℕ) (items : List α) (fn : α → Except ε Unit)
    (limit : WithTop ℕ) : List (IterEvent α) × Option ε :=
  iterLoop clock fn limit items 1 ((clock 0 : WithTop ℕ) + limit)

/-- The callback invocations of a trace, in order. -/
def callsOf : List (IterEvent α) → List α
  | [] => []
  | .yieldEv :: rest => callsOf rest
  | .callEv a :: rest => a :: callsOf rest

/-! ### The yield subsystem: `pendingResolvers`, `resolvePendingPromises`,
`yieldUnlessUrgent` (src/aem-cwv-helper.js lines 35-88)

```js
const pendingResolvers = new Set();
function resolvePendingPromises() {
  for (const resolve of pendingResolvers) {
    resolve();
  }
  pendingResolvers.clear();
}
```

and inside `yieldUnlessUrgent` (visible page), the two resumption paths:

```js
if (window.scheduler?.yield) {
  scheduler.yield().then(resolve);          // native path
} else {
  window.requestAnimationFrame(() => {
    window.setTimeout(() => {
      pendingResolvers.delete(resolve);     // fallback path
      resolve();
    });
  });
}
```

Each promise / resolver is identified by a natural number.  `registry` models
the insertion-ordered `pendingResolvers` set; `resolved` the set of promise ids
whose resolver has been called at least once; `fired` the list of scheduled
continuation runs (a JavaScript promise schedules its reaction exactly when its
resolver is called for the first time — later calls to the resolver are
specified to be no-ops).
-/

/-- State of the yield subsystem. -/
structure YieldState where
  registry : List ℕ
  resolved : List ℕ
  fired : List ℕ
deriving DecidableEq, Repr

/-- JavaScript promise-resolver semantics: the first call to `resolve` settles
the promise and schedules its reaction; any later call is a no-op. -/
def resolveP (id : ℕ) (s : YieldState) : YieldState :=
  if id ∈ s.resolved then s
  else { s with resolved := id :: s.resolved, fired := s.fired ++ [id] }

/-- The loop body of `resolvePendingPromises`: call each resolver of the given
snapshot of the registry, in insertion order. -/
def sweepResolve : List ℕ → YieldState → YieldState
  | [], s => s
  | r :: rest, s => sweepResolve rest (resolveP r s)

/-- `resolvePendingPromises()`: resolve every registered resolver, in order,
then `pendingResolvers.clear()`. -/
def resolvePendingPromises (s : YieldState) : YieldState :=
  { sweepResolve s.registry s with registry := [] }

/-- `pendingResolvers.add(resolve)` at the top of `yieldUnlessUrgent`
(a JavaScript `Set` ignores re-insertion of a present element). -/
def addPending (id : ℕ) (s : YieldState) : YieldState :=
  if id ∈ s.registry then s else { s with registry := s.registry ++ [id] }

/-- The native resumption path: `scheduler.yield().then(resolve)` — the
resolver is called, and nothing is removed from `pendingResolvers`. -/
def nativeResume (id : ℕ) (s : YieldState) : YieldState :=
  resolveP id s

/-- The fallback resumption path (inside `requestAnimationFrame` +
`setTimeout`): `pendingResolvers.delete(resolve); resolve();`. -/
def fallbackResume (id : ℕ) (s : YieldState) : YieldState :=
  resolveP id { s with registry := s.registry.erase id }

/-- A page-hidden / pagehide event dispatch with `k` registered `cleanup`
handlers (each pending `yieldUnlessUrgent` call on a visible page registered
its own `cleanup` listener on `visibilitychange` and `pagehide`).  Each handler
removes its own two listeners — which only affects later dispatches — and then
calls `resolvePendingPromises()`; the handlers run sequentially within one
synchronous dispatch. -/
def dispatchHidden : ℕ → YieldState → YieldState
  | 0, s => s
  | k + 1, s => dispatchHidden k (resolvePendingPromises s)

/-- Resumption-related events a `YieldState` can undergo, for the
double-resumption safety analysis: a new pending yield, a fallback-path
natural resumption, a native-path natural resumption, and a forced sweep
triggered by a lifecycle event. -/
inductive ResumeEv where
  | add (id : ℕ)
  | fallback (id : ℕ)
  | native (id : ℕ)
  | sweep
deriving DecidableEq, Repr

/-- Apply one event. -/
def stepEv : ResumeEv → YieldState → YieldState
  | .add id, s => addPending id s
  | .fallback id, s => fallbackResume id s
  | .native id, s => nativeResume id s
  | .sweep, s => resolvePendingPromises s

/-- Apply a sequence of events in order. -/
def runEvs : List ResumeEv → YieldState → YieldState
  | [], s => s
  | e :: rest, s => runEvs rest (stepEv e s)

/-- The state at page load: empty registry, nothing resolved, nothing fired. -/
def initialYieldState : YieldState := ⟨[], [], []⟩

/-! ### `afterNextPaint` / `performAsyncUiUpdate` (src lines 24-33, 129-131)

```js
async function afterNextPaint(fn) {
  await new Promise((resolve) => {
    // Fallback for the case where the animation frame never fires.
    window.setTimeout(resolve, 100);
    window.requestAnimationFrame(() => {
      window.setTimeout(resolve);
    });
  });
  return fn();
}
export async function performAsyncUiUpdate(fn) {
  return afterNextPaint(() => fn());
}
```

Modelled by a deterministic macrotask loop.  A task is a pair of a due time
and a sequence number (ties are broken by scheduling order, as in a browser);
`frameTime` is the environment-chosen instant at which the next animation
frame fires (`⊤`: the frame never fires).  The `await` continuation — the call
of `fn` — runs in the microtask right after the first call to `resolve`, i.e.
before any further macrotask; calling `resolve` again later is a no-op. -/

/-- The three macrotask callbacks appearing in `afterNextPaint`,
defunctionalised. -/
inductive PaintTask where
  | timeout100
  | animFrame
  | timeout0
deriving DecidableEq, Repr

/-- Observable events of one `afterNextPaint` run: the 100ms timeout callback
ran, the animation-frame callback ran, the inner zero-delay timeout callback
ran, and the `await` continuation invoked `fn`. -/
inductive PaintEv where
  | timerFired
  | frameFired
  | tickFired
  | fnInvoked
deriving DecidableEq, Repr

/-- Scheduler state for one `afterNextPaint` run. -/
structure PaintState where
  queue : List (ℕ × ℕ × PaintTask)
  nextSeq : ℕ
  promiseResolved : Bool
  trace : List PaintEv
deriving DecidableEq, Repr

/-- Macrotask ordering: earlier due time first; at equal due times, earlier
sequence number (scheduling order) first. -/
def taskLE (a b : ℕ × ℕ × PaintTask) : Prop :=
  a.1 < b.1 ∨ (a.1 = b.1 ∧ a.2.1 ≤ b.2.1)

instance (a b : ℕ × ℕ × PaintTask) : Decidable (taskLE a b) := by
  unfold taskLE; infer_instance

/-- Remove the next macrotask to run (minimal in `taskLE`) from the queue. -/
def popMin : List (ℕ × ℕ × PaintTask) →
    Option ((ℕ × ℕ × PaintTask) × List (ℕ × ℕ × PaintTask))
  | [] => none
  | t :: ts =>
    match popMin ts with
    | none => some (t, [])
    | some (m, rest) => if taskLE t m then some (t, m :: rest) else some (m, t :: rest)

/-- Run the next macrotask.  `timeout100` and `timeout0` call `resolve`; if the
promise was not yet resolved this settles it and the `await` continuation runs
`fn` in the following microtask (before any other macrotask).  `animFrame` at
time `t` executes `window.setTimeout(resolve)`, scheduling `timeout0` at due
time `t` with a fresh (larger) sequence number. -/
def paintStep (s : PaintState) : PaintState :=
  match popMin s.queue with
  | none => s
  | some ((due, _, task), rest) =>
    match task with
    | .timeout100 =>
      if s.promiseResolved then
        { s with queue := rest, trace := s.trace ++ [.timerFired] }
      else
        { s with queue := rest, promiseResolved := true,
                 trace := s.trace ++ [.timerFired, .fnInvoked] }
    | .animFrame =>
      { s with queue := rest ++ [(due, s.nextSeq, .timeout0)], nextSeq := s.nextSeq + 1,
               trace := s.trace ++ [.frameFired] }
    | .timeout0 =>
      if s.promiseResolved then
        { s with queue := rest, trace := s.trace ++ [.tickFired] }
      else
        { s with queue := rest, promiseResolved := true,
                 trace := s.trace ++ [.tickFired, .fnInvoked] }

/-- Run the macrotask loop until the queue is empty, with enough fuel (at most
three macrotasks ever exist in one `afterNextPaint` run). -/
def paintRun : ℕ → PaintState → PaintState
  | 0, s => s
  | fuel + 1, s => if s.queue.isEmpty then s else paintRun fuel (paintStep s)

/-- The initial queue of `afterNextPaint`: `setTimeout(resolve, 100)` is
scheduled first (due 100, seq 0), then `requestAnimationFrame(...)` (due
`frameTime`, seq 1) — unless the frame never fires (`frameTime = ⊤`). -/
def afterNextPaintInit (frameTime : WithTop ℕ) : PaintState :=
  match frameTime with
  | ⊤ => { queue := [(100, 0, .timeout100)], nextSeq := 2, promiseResolved := false, trace := [] }
  | (tf : ℕ) => { queue := [(100, 0, .timeout100), (tf, 1, .animFrame)], nextSeq := 2,
                  promiseResolved := false, trace := [] }

/-- The event trace of one `afterNextPaint` run when the next animation frame
fires at `frameTime`. -/
def afterNextPaintTrace (frameTime : WithTop ℕ) : List PaintEv :=
  (paintRun 4 (afterNextPaintInit frameTime)).trace

/-- `performAsyncUiUpdate(fn)` is `afterNextPaint(() => fn())`: same trace. -/
def performAsyncUiUpdateTrace (frameTime : WithTop ℕ) : List PaintEv :=
  afterNextPaintTrace frameTime

/-- Number of events that run strictly before `fn` is invoked. -/
def fnDelay (tr : List PaintEv) : ℕ :=
  (tr.takeWhile (fun e => e ≠ PaintEv.fnInvoked)).length

/-- Modelled from the claim wording: after the race winner (the first event),
at least one more scheduling event occurs before `fn` is invoked — i.e. `fn`
runs at event index ≥ 2 on every branch. -/
def claimedOneMoreTick (tr : List PaintEv) : Prop :=
  2 ≤ fnDelay tr

/-- Modelled from the amended claim: the 100ms timer races against the frame
followed by one more scheduling tick.  If the frame fires before the 100ms
mark, its follow-up tick wins and `fn` runs right after that tick; otherwise
the timer wins and `fn` runs right after the timer callback, with no extra
scheduling tick. -/
def expectedPaintTrace : WithTop ℕ → List PaintEv
  | ⊤ => [.timerFired, .fnInvoked]
  | (tf : ℕ) =>
    if tf < 100 then [.frameFired, .tickFired, .fnInvoked, .timerFired]
    else [.timerFired, .fnInvoked, .frameFired, .tickFired]

/-! ### `debounceUiUpdate(fn)` (src lines 227-237)

```js
export function debounceUiUpdate(fn) {
  let rafId;
  return (...args) => {
    cancelAnimationFrame(rafId);
    return new Promise((resolve) => {
      rafId = requestAnimationFrame(() => {
        resolve(fn(...args));
      });
    });
  };
}
```

`rafIdVar` is the closure variable `rafId` (`none` = `undefined`;
`cancelAnimationFrame(undefined)` is a no-op).  `pending` is the list of
animation-frame callbacks currently queued for this wrapper, as triples
of the rAF handle, the promise id, and the captured `args`; the i-th call to
the wrapper (counting from 0) creates promise id `i` and rAF handle `i`.
`invoked` records the invocations of `fn`, `resolvedVals` the promises
resolved, with the value `fn(args)` they were resolved with. -/

/-- Per-wrapper state of a debounced function. -/
structure DebounceState (α β : Type) where
  rafIdVar : Option ℕ
  nextId : ℕ
  nextP : ℕ
  pending : List (ℕ × ℕ × α)
  invoked : List α
  resolvedVals : List (ℕ × β)
deriving DecidableEq, Repr

/-- `cancelAnimationFrame(rafId)`: removes the queued frame callback with that
handle, if any; a no-op on `undefined` or on an already-fired handle. -/
def cancelFrame (oid : Option ℕ) (pending : List (ℕ × ℕ × α)) : List (ℕ × ℕ × α) :=
  match oid with
  | none => pending
  | some i => pending.filter (fun e => e.1 ≠ i)

/-- One call of the wrapped function with arguments `args`: cancel the
previously requested frame callback, create a fresh promise, and request a new
frame callback that will resolve it with `fn(args)`.  Returns the id of the
promise handed back to the caller. -/
def debounceCall (args : α) (s : DebounceState α β) : ℕ × DebounceState α β :=
  (s.nextP,
   { rafIdVar := some s.nextId, nextId := s.nextId + 1, nextP := s.nextP + 1,
     pending := cancelFrame s.rafIdVar s.pending ++ [(s.nextId, s.nextP, args)],
     invoked := s.invoked, resolvedVals := s.resolvedVals })

/-- The next animation frame fires: every queued callback of this wrapper runs,
in registration order; each invokes `fn` on its captured `args` and resolves
its promise with the result. -/
def frameFire (fn : α → β) (s : DebounceState α β) : DebounceState α β :=
  { s with pending := [],
           invoked := s.invoked ++ s.pending.map (fun e => e.2.2),
           resolvedVals := s.resolvedVals ++ s.pending.map (fun e => (e.2.1, fn e.2.2)) }

/-- The state of a freshly created wrapper: `rafId` is `undefined`. -/
def debounceInit : DebounceState α β := ⟨none, 0, 0, [], [], []⟩

/-- A burst of calls to the wrapper, all before the next frame fires. -/
def burst (l : List α) (s : DebounceState α β) : DebounceState α β :=
  l.foldl (fun st a => (debounceCall a st).2) s

/-! ### `prioritizeImages(selector)` (src lines 51-58)

```js
export function prioritizeImages(selector) {
  document.querySelectorAll(selector).forEach((img) => {
    img.setAttribute('loading', 'eager');
    img.setAttribute('fetchpriority', 'high');
    img.loading = 'eager';
    img.fetchpriority = 'high';
  });
}
```

An element carries its attribute list (unique names in a real DOM; `setAttr`
replaces the first binding of the name or appends a new one, as
`Element.setAttribute` does) and the two script-visible properties the code
assigns.  CSS selector matching is performed by the browser; in general the
match of one element may depend on other elements of the document (combinators,
sibling attribute tests), so the selector is modelled as
`selDoc : List ImgElem → ℕ → Bool` deciding, for a document snapshot, whether
its element at a given index matches.  `document.querySelectorAll` returns a
static snapshot, so all matching is evaluated against the document state at
the start of the call — `List.mapIdx` below passes the original `doc` to
`selDoc`, exactly like the snapshot — and `forEach` then updates each matched
element. -/

/-- A DOM image element, restricted to the state `prioritizeImages` reads or
writes. -/
structure ImgElem where
  attrs : List (String × String)
  loadingProp : String
  fetchpriorityProp : String
deriving DecidableEq, Repr

/-- `Element.setAttribute(n, v)`: replace the binding of `n`, or append it. -/
def setAttr (n v : String) : List (String × String) → List (String × String)
  | [] => [(n, v)]
  | (m, w) :: rest => if m = n then (n, v) :: rest else (m, w) :: setAttr n v rest

/-- The `forEach` body applied to one matched element. -/
def prioritizeOne (e : ImgElem) : ImgElem :=
  { attrs := setAttr "fetchpriority" "high" (setAttr "loading" "eager" e.attrs),
    loadingProp := "eager", fetchpriorityProp := "high" }

/-- `prioritizeImages`: update every element of the call-time snapshot that the
selector matches there. -/
def prioritizeImages (selDoc : List ImgElem → ℕ → Bool) (doc : List ImgElem) : List ImgElem :=
  doc.mapIdx (fun i e => if selDoc doc i then prioritizeOne e else e)

/-- First binding of attribute `n`, as `Element.getAttribute` sees it. -/
def getAttr (n : String) : List (String × String) → Option String
  | [] => none
  | (m, w) :: rest => if m = n then some w else getAttr n rest

/-- A lazily-loading image element. -/
def lazyImg : ImgElem := ⟨[("loading", "lazy")], "lazy", "auto"⟩

/-- The CSS selector `img:first-child, img[loading="eager"] + img` evaluated
on a list of sibling images: matches the first element, and every element
whose previous sibling carries the attribute `loading="eager"`.  Its match for
one element depends on another element of the document. -/
def firstOrAfterEager (doc : List ImgElem) (i : ℕ) : Bool :=
  match i with
  | 0 => true
  | j + 1 =>
    match doc[j]? with
    | some p => decide (getAttr "loading" p.attrs = some "eager")
    | none => false

/-! ### `patchDatalayer(dl)` (src lines 175-182)

```js
export function patchDatalayer(dl) {
  const originalDataLayerPush = dl.push;
  dl.push = (...args) => {
    splitLongTask().then(() => {
      originalDataLayerPush(...args);
    });
  };
}
```

The patched `push` is an arrow function with a block body and no `return`
statement: it returns `undefined` (modelled `none`), whatever the original
`push` would return (`Array.prototype.push` returns a number).  The `.then`
reaction runs in a microtask after the yield promise resolves, never during the
synchronous call — `originalCalls` can only grow in `runDLCont`. -/

/-- State of a patched data layer: continuations waiting on their yield
promise, and the performed invocations of the original `push`, in order. -/
structure DLState (α : Type) where
  scheduledConts : List (List α)
  originalCalls : List (List α)
deriving DecidableEq, Repr

/-- One synchronous call of the patched `dl.push(...args)`: it calls
`splitLongTask()` and registers the reaction, then returns `undefined`. -/
def patchedPush (args : List α) (s : DLState α) : Option ℕ × DLState α :=
  (none, { s with scheduledConts := s.scheduledConts ++ [args] })

/-- A yield promise resolves: the oldest waiting reaction runs and forwards its
captured arguments to the original `push`. -/
def runDLCont (s : DLState α) : DLState α :=
  match s.scheduledConts with
  | [] => s
  | args :: rest => { scheduledConts := rest, originalCalls := s.originalCalls ++ [args] }

/-! ### `prefetchResources(urls)` (src lines 260-270)

```js
export async function prefetchResources(urls) {
  const link = document.createElement('link');
  link.rel = 'prefetch';
  link.href = url;
  return callCostlyApi(() => {
    document.head.appendChild(link);
    ...
  });
}
```

The only identifiers in scope are the parameter `urls` and the module-level
bindings of the file, none of which is named `url`; evaluating `url` on the
third line therefore throws a `ReferenceError` synchronously, which the async
function surfaces as a rejected promise, before anything is appended to
`document.head`. -/

/-- A JavaScript runtime error surfaced by the embedding. -/
inductive JsError where
  | referenceError (name : String)
deriving DecidableEq, Repr

/-- The binding of the identifier `url` at `link.href = url`: there is none. -/
def urlBinding : Option String := none

set_option linter.unusedVariables false in
/-- `prefetchResources(urls)` acting on the list of prefetch-link hrefs in
`document.head`.  Returns the new head contents and the error, if any.
The parameter `urls` is never read by the body — exactly as in the source,
which is the bug under examination. -/
def prefetchResources (urls : List String) (headLinks : List String) :
    List String × Option JsError :=
  match urlBinding with
  | none => (headLinks, some (.referenceError "url"))
  | some u => (headLinks ++ [u], none)

/-- Modelled from the spec: inserts one prefetch link tag per URL of `urls`
into the document head. -/
def prefetchResourcesSpec (urls : List String) (headLinks : List String) :
    List String × Option JsError :=
  (headLinks ++ urls, none)

/-! ## Theorems -/

theorem iterLoop_calls (clock : ℕ → ℕ) (fn : α → Except ε Unit) (limit : WithTop ℕ) :
    ∀ (items : List α) (q : ℕ) (deadline : WithTop ℕ),
    (∀ a ∈ items, fn a = Except.ok ()) →
    callsOf (iterLoop clock fn limit items q deadline).1 = items := by
  intro items
  induction items with
  | nil => intro q d _; simp [iterLoop, callsOf]
  | cons a rest ih =>
    intro q d hok
    have ha : fn a = Except.ok () := hok a (by simp)
    have hr : ∀ x ∈ rest, fn x = Except.ok () := fun x hx => hok x (by simp [hx])
    by_cases h : d ≤ (clock q : WithTop ℕ) <;>
      simp [iterLoop, h, ha, callsOf, ih _ _ hr]

theorem iterLoop_zero (clock : ℕ → ℕ) (fn : α → Except ε Unit) (hmono : Monotone clock) :
    ∀ (items : List α) (q j : ℕ), j < q →
    (∀ a ∈ items, fn a = Except.ok ()) →
    (iterLoop clock fn 0 items q (clock j : WithTop ℕ)).1
      = items.flatMap (fun a => [IterEvent.yieldEv, IterEvent.callEv a]) := by
  intro items
  induction items with
  | nil => intro q j _ _; simp [iterLoop]
  | cons a rest ih =>
    intro q j hj hok
    have ha : fn a = Except.ok () := hok a (by simp)
    have hr : ∀ x ∈ rest, fn x = Except.ok () := fun x hx => hok x (by simp [hx])
    have hcond : (clock j : WithTop ℕ) ≤ (clock q : WithTop ℕ) :=
      WithTop.coe_le_coe.mpr (hmono (Nat.le_of_lt hj))
    have hstep := ih (q + 2) (q + 1) (by omega) hr
    simp [iterLoop, hcond, ha, add_zero, hstep]

theorem iterLoop_top (clock : ℕ → ℕ) (fn : α → Except ε Unit) :
    ∀ (items : List α) (q : ℕ),
    (∀ a ∈ items, fn a = Except.ok ()) →
    (iterLoop clock fn ⊤ items q ⊤).1 = items.map IterEvent.callEv := by
  intro items
  induction items with
  | nil => intro q _; simp [iterLoop]
  | cons a rest ih =>
    intro q hok
    have ha : fn a = Except.ok () := hok a (by simp)
    have hr : ∀ x ∈ rest, fn x = Except.ok () := fun x hx => hok x (by simp [hx])
    have hcond : ¬ ((⊤ : WithTop ℕ) ≤ (clock q : WithTop ℕ)) := by
      simp
    simp [iterLoop, hcond, ha, ih _ hr]

/-- C1: `splitLongIteration(items, fn, limit)` invokes `fn` on every element of
`items` exactly once, in original sequence order, for every limit; with
`limit = 0` it yields (awaits `splitLongTask`) before every element, and with
`limit = Infinity` (`⊤`) it never yields. -/
theorem splitLongIteration_order (clock : ℕ → ℕ) (items : List α)
    (fn : α → Except ε Unit) (limit : WithTop ℕ)
    (hok : ∀ a ∈ items, fn a = Except.ok ()) (hmono : Monotone clock) :
    callsOf (splitLongIteration clock items fn limit).1 = items
    ∧ (limit = 0 → (splitLongIteration clock items fn limit).1
        = items.flatMap (fun a => [IterEvent.yieldEv, IterEvent.callEv a]))
    ∧ (limit = ⊤ → (splitLongIteration clock items fn limit).1
        = items.map IterEvent.callEv) := by
  refine ⟨iterLoop_calls clock fn limit items 1 _ hok, ?_, ?_⟩
  · rintro rfl
    have h := iterLoop_zero clock fn hmono items 1 0 (by omega) hok
    simpa [splitLongIteration, add_zero] using h
  · rintro rfl
    have h := iterLoop_top clock fn items 1 hok
    simpa [splitLongIteration, add_top] using h

/-- Witness for C1: the concrete scenario of the spec, `[1,2,3,4,5]` with
`limit = 0`, a yield before every element. -/
theorem splitLongIteration_order_witness :
    callsOf (splitLongIteration id [1, 2, 3, 4, 5]
        (fun _ : ℕ => (Except.ok () : Except Unit Unit)) 0).1 = [1, 2, 3, 4, 5]
    ∧ (splitLongIteration id [1, 2, 3, 4, 5]
        (fun _ : ℕ => (Except.ok () : Except Unit Unit)) 0).1
      = [IterEvent.yieldEv, IterEvent.callEv 1, IterEvent.yieldEv, IterEvent.callEv 2,
         IterEvent.yieldEv, IterEvent.callEv 3, IterEvent.yieldEv, IterEvent.callEv 4,
         IterEvent.yieldEv, IterEvent.callEv 5] := by
  have h := splitLongIteration_order id [1, 2, 3, 4, 5]
    (fun _ : ℕ => (Except.ok () : Except Unit Unit)) 0 (fun a _ => rfl) monotone_id
  exact ⟨h.1, by rw [h.2.1 rfl]; rfl⟩

theorem iterLoop_error (clock : ℕ → ℕ) (fn : α → Except ε Unit) (limit : WithTop ℕ)
    (a : α) (post : List α) (e : ε) (ha : fn a = Except.error e) :
    ∀ (pre : List α) (q : ℕ) (deadline : WithTop ℕ),
    (∀ x ∈ pre, fn x = Except.ok ()) →
    (iterLoop clock fn limit (pre ++ a :: post) q deadline).2 = some e
    ∧ callsOf (iterLoop clock fn limit (pre ++ a :: post) q deadline).1 = pre ++ [a] := by
  intro pre
  induction pre with
  | nil =>
    intro q d _
    by_cases h : d ≤ (clock q : WithTop ℕ) <;>
      simp [iterLoop, h, ha, callsOf]
  | cons x rest ih =>
    intro q d hok
    have hx : fn x = Except.ok () := hok x (by simp)
    have hr : ∀ y ∈ rest, fn y = Except.ok () := fun y hy => hok y (by simp [hy])
    by_cases h : d ≤ (clock q : WithTop ℕ) <;>
      simp [iterLoop, h, hx, callsOf, ih _ _ hr]

/-- C7: if `fn` throws on some element (here: the first throwing element `a`,
every earlier element succeeding), the error propagates unmodified out of
`splitLongIteration` and no element after the throwing one is processed. -/
theorem splitLongIteration_error_propagates (clock : ℕ → ℕ) (pre post : List α) (a : α)
    (fn : α → Except ε Unit) (limit : WithTop ℕ) (e : ε)
    (hpre : ∀ x ∈ pre, fn x = Except.ok ()) (ha : fn a = Except.error e) :
    (splitLongIteration clock (pre ++ a :: post) fn limit).2 = some e
    ∧ callsOf (splitLongIteration clock (pre ++ a :: post) fn limit).1 = pre ++ [a] :=
  iterLoop_error clock fn limit a post e ha pre 1 _ hpre

/-- Witness for C7: `fn` throws `7` on element `2` of `[1, 2, 3]` with the
default limit 48; the error comes out and `3` is never processed. -/
theorem splitLongIteration_error_propagates_witness :
    (splitLongIteration id ([1] ++ 2 :: [3])
        (fun n : ℕ => if n = 2 then Except.error 7 else Except.ok ()) 48).2 = some 7
    ∧ callsOf (splitLongIteration id ([1] ++ 2 :: [3])
        (fun n : ℕ => if n = 2 then Except.error 7 else Except.ok ()) 48).1 = [1] ++ [2] := by
  exact splitLongIteration_error_propagates id [1] [3] 2
    (fun n : ℕ => if n = 2 then Except.error 7 else Except.ok ()) 48 7
    (by intro x hx; simp only [List.mem_singleton] at hx; subst hx; rfl) rfl

theorem resolveP_registry (j : ℕ) (s : YieldState) : (resolveP j s).registry = s.registry := by
  unfold resolveP; split <;> rfl

theorem resolveP_resolved_mono (j id : ℕ) (s : YieldState) (h : id ∈ s.resolved) :
    id ∈ (resolveP j s).resolved := by
  unfold resolveP; split
  · exact h
  · exact List.mem_cons_of_mem _ h

theorem resolveP_resolves_self (id : ℕ) (s : YieldState) : id ∈ (resolveP id s).resolved := by
  unfold resolveP; split
  · assumption
  · exact List.mem_cons_self _ _

theorem sweepResolve_registry (l : List ℕ) : ∀ s : YieldState,
    (sweepResolve l s).registry = s.registry := by
  induction l with
  | nil => intro s; rfl
  | cons r rest ih => intro s; rw [sweepResolve, ih, resolveP_registry]

theorem sweepResolve_resolved_mono (l : List ℕ) : ∀ (s : YieldState) (id : ℕ),
    id ∈ s.resolved → id ∈ (sweepResolve l s).resolved := by
  induction l with
  | nil => intro s id h; exact h
  | cons r rest ih => intro s id h; exact ih _ id (resolveP_resolved_mono r id s h)

theorem sweepResolve_resolves_all (l : List ℕ) : ∀ (s : YieldState) (id : ℕ),
    id ∈ l → id ∈ (sweepResolve l s).resolved := by
  induction l with
  | nil => intro s id h; cases h
  | cons r rest ih =>
    intro s id h
    rcases List.mem_cons.mp h with h | h
    · subst h; exact sweepResolve_resolved_mono rest _ id (resolveP_resolves_self id s)
    · exact ih _ id h

theorem resolvePendingPromises_registry (s : YieldState) :
    (resolvePendingPromises s).registry = [] := rfl

theorem resolvePendingPromises_resolves_all (s : YieldState) (id : ℕ) (h : id ∈ s.registry) :
    id ∈ (resolvePendingPromises s).resolved :=
  sweepResolve_resolves_all s.registry s id h

theorem dispatchHidden_resolved_mono (k : ℕ) : ∀ (s : YieldState) (id : ℕ),
    id ∈ s.resolved → id ∈ (dispatchHidden k s).resolved := by
  induction k with
  | zero => intro s id h; exact h
  | succ m ih =>
    intro s id h
    exact ih _ id (sweepResolve_resolved_mono s.registry s id h)

theorem dispatchHidden_registry_empty (k : ℕ) : ∀ s : YieldState, s.registry = [] →
    (dispatchHidden k s).registry = [] := by
  induction k with
  | zero => intro s h; exact h
  | succ m ih => intro s _; exact ih _ rfl

/-- C2: if `N` `yieldUnlessUrgent` calls are pending in `pendingResolvers` and a
page-hidden / pagehide lifecycle event fires (dispatching the `k ≥ 1` registered
`cleanup` handlers in one synchronous pass), every pending promise is resolved
within that pass and the registry is empty immediately afterwards. -/
theorem forcedResume_sweeps (s : YieldState) (k : ℕ) (hk : 1 ≤ k) :
    (∀ id ∈ s.registry, id ∈ (dispatchHidden k s).resolved)
    ∧ (dispatchHidden k s).registry = [] := by
  obtain ⟨m, rfl⟩ : ∃ m, k = m + 1 := ⟨k - 1, by omega⟩
  constructor
  · intro id hid
    show id ∈ (dispatchHidden m (resolvePendingPromises s)).resolved
    exact dispatchHidden_resolved_mono m _ id (resolvePendingPromises_resolves_all s id hid)
  · show (dispatchHidden m (resolvePendingPromises s)).registry = []
    exact dispatchHidden_registry_empty m _ rfl

/-- Witness for C2: three pending yields (ids 4, 5, 6), three cleanup handlers;
the lifecycle dispatch resolves all three and empties the registry. -/
theorem forcedResume_sweeps_witness :
    (∀ id ∈ (⟨[4, 5, 6], [], []⟩ : YieldState).registry,
        id ∈ (dispatchHidden 3 ⟨[4, 5, 6], [], []⟩).resolved)
    ∧ (dispatchHidden 3 (⟨[4, 5, 6], [], []⟩ : YieldState)).registry = [] :=
  forcedResume_sweeps ⟨[4, 5, 6], [], []⟩ 3 (by omega)

/-- C3 (the code at the failing input): a single pending yield (id 7) on a
visible page resumed naturally.  On the native `scheduler.yield` path the
promise is resolved but its resolver is NOT removed from `pendingResolvers`;
only the rAF+setTimeout fallback path removes it. -/
theorem nativeResume_keeps_registry_entry :
    (nativeResume 7 ⟨[7], [], []⟩).resolved = [7]
    ∧ (nativeResume 7 ⟨[7], [], []⟩).registry = [7]
    ∧ (fallbackResume 7 ⟨[7], [], []⟩).resolved = [7]
    ∧ (fallbackResume 7 ⟨[7], [], []⟩).registry = [] := by
  decide

/-- The registry-independent part of the state invariant: a continuation has
been scheduled exactly once for each settled promise, never for an unsettled
one. -/
def FiredInv (s : YieldState) : Prop :=
  ∀ id : ℕ, s.fired.count id = if id ∈ s.resolved then 1 else 0

theorem firedInv_resolveP (j : ℕ) (s : YieldState) (h : FiredInv s) :
    FiredInv (resolveP j s) := by
  intro id
  unfold resolveP
  split
  · exact h id
  · rename_i hj
    show (s.fired ++ [j]).count id = if id ∈ j :: s.resolved then 1 else 0
    rw [List.count_append]
    by_cases hid : id = j
    · subst hid
      have := h id
      simp [hj] at this
      simp [this]
    · have hmem : (id ∈ j :: s.resolved) ↔ (id ∈ s.resolved) := by
        simp [List.mem_cons, hid]
      rw [if_congr hmem rfl rfl]
      have h1 : ([j].count id) = 0 := by
        simp [List.count_cons, hid]
      rw [h1, Nat.add_zero]
      exact h id

theorem firedInv_sweepResolve (l : List ℕ) : ∀ s : YieldState, FiredInv s →
    FiredInv (sweepResolve l s) := by
  induction l with
  | nil => intro s h; exact h
  | cons r rest ih => intro s h; exact ih _ (firedInv_resolveP r s h)

theorem firedInv_stepEv (e : ResumeEv) (s : YieldState) (h : FiredInv s) :
    FiredInv (stepEv e s) := by
  cases e with
  | add id =>
    intro j
    show (addPending id s).fired.count j = if j ∈ (addPending id s).resolved then 1 else 0
    unfold addPending
    split <;> exact h j
  | fallback id =>
    exact firedInv_resolveP id _ (fun j => h j)
  | native id =>
    exact firedInv_resolveP id s h
  | sweep =>
    intro j
    show (resolvePendingPromises s).fired.count j
        = if j ∈ (resolvePendingPromises s).resolved then 1 else 0
    unfold resolvePendingPromises
    exact firedInv_sweepResolve s.registry s h j

theorem firedInv_runEvs (evs : List ResumeEv) : ∀ s : YieldState, FiredInv s →
    FiredInv (runEvs evs s) := by
  induction evs with
  | nil => intro s h; exact h
  | cons e rest ih => intro s h; exact ih _ (firedInv_stepEv e s h)

/-- C4: along every interleaving of pending-yield creations, fallback-path
resumptions, native-path resumptions and forced sweeps, the continuation
awaiting any given yield promise is scheduled at most once (each modelled
operation is total, so no interleaving can throw). -/
theorem doubleResume_safe (evs : List ResumeEv) (id : ℕ) :
    ((runEvs evs initialYieldState).fired.count id) ≤ 1 := by
  have hinit : FiredInv initialYieldState := by
    intro j; simp [initialYieldState]
  have h := firedInv_runEvs evs initialYieldState hinit id
  rw [h]
  split <;> omega

/-- C5 counterexample: with the next animation frame due at 200ms the 100ms
timer wins the race, and `fn` is invoked directly in the microtask after the
timer callback — no further scheduling tick separates the race winner from the
invocation of `fn`, contradicting the claim that either winning branch waits
one more scheduling tick. -/
theorem performAsyncUiUpdate_timer_branch_no_tick :
    performAsyncUiUpdateTrace ((200 : ℕ) : WithTop ℕ)
      = [PaintEv.timerFired, PaintEv.fnInvoked, PaintEv.frameFired, PaintEv.tickFired]
    ∧ ¬ claimedOneMoreTick (performAsyncUiUpdateTrace ((200 : ℕ) : WithTop ℕ)) := by
  constructor
  · decide
  · unfold claimedOneMoreTick
    decide

/-- C5 amended: `performAsyncUiUpdate(fn)` waits for whichever happens first of
(a) the next animation frame followed by one more scheduling tick, or (b) the
100ms safety-net timer; on the frame branch `fn` is invoked after the extra
tick, while on the timer branch (timer at 100ms before the frame, or no frame
at all) `fn` is invoked right after the timer callback with no extra tick. -/
theorem performAsyncUiUpdate_race (ft : WithTop ℕ) :
    performAsyncUiUpdateTrace ft = expectedPaintTrace ft := by
  cases ft with
  | top => decide
  | coe tf =>
    by_cases h : tf < 100
    · have h1 : ¬ taskLE (100, 0, PaintTask.timeout100) (tf, 1, PaintTask.animFrame) := by
        simp only [taskLE]; push_neg; omega
      have h2 : ¬ taskLE (100, 0, PaintTask.timeout100) (tf, 2, PaintTask.timeout0) := by
        simp only [taskLE]; push_neg; omega
      simp [performAsyncUiUpdateTrace, afterNextPaintTrace, afterNextPaintInit,
            expectedPaintTrace, paintRun, paintStep, popMin, h, h1, h2]
    · have h1 : taskLE (100, 0, PaintTask.timeout100) (tf, 1, PaintTask.animFrame) := by
        simp only [taskLE]; omega
      simp [performAsyncUiUpdateTrace, afterNextPaintTrace, afterNextPaintInit,
            expectedPaintTrace, paintRun, paintStep, popMin, h, h1]

theorem burst_from_single (xs : List α) : ∀ (k p : ℕ) (a : α),
    burst xs (⟨some k, k + 1, p + 1, [(k, p, a)], [], []⟩ : DebounceState α β)
      = ⟨some (k + xs.length), k + xs.length + 1, p + xs.length + 1,
         [(k + xs.length, p + xs.length, xs.getLastD a)], [], []⟩ := by
  induction xs with
  | nil => intro k p a; simp [burst]
  | cons y ys ih =>
    intro k p a
    have hstep : burst (y :: ys) (⟨some k, k + 1, p + 1, [(k, p, a)], [], []⟩ : DebounceState α β)
        = burst ys (⟨some (k + 1), (k + 1) + 1, (p + 1) + 1,
            [(k + 1, p + 1, y)], [], []⟩ : DebounceState α β) := by
      show burst ys (debounceCall y (⟨some k, k + 1, p + 1, [(k, p, a)], [], []⟩ :
          DebounceState α β)).2 = _
      simp [debounceCall, cancelFrame]
    rw [hstep, ih (k + 1) (p + 1) y]
    simp only [List.length_cons, List.getLastD_cons, DebounceState.mk.injEq, Option.some.injEq,
      List.cons.injEq, Prod.mk.injEq, and_true, true_and]
    omega

/-- C6: for every burst of calls to a freshly created debounced wrapper, all
before the next frame fires, the frame invokes `fn` exactly once, with the
arguments of the most recent call only; only the last call promise resolves
(with the `fn` result), superseded promises never resolve, and further frames
change nothing. -/
theorem debounceUiUpdate_coalesces (fn : α → β) (x : α) (xs : List α) :
    (frameFire fn (burst (x :: xs) debounceInit)).invoked = [xs.getLastD x]
    ∧ (frameFire fn (burst (x :: xs) debounceInit)).resolvedVals
        = [(xs.length, fn (xs.getLastD x))]
    ∧ (∀ p v, (p, v) ∈ (frameFire fn (burst (x :: xs) debounceInit)).resolvedVals
        → p = xs.length)
    ∧ frameFire fn (frameFire fn (burst (x :: xs) debounceInit))
        = frameFire fn (burst (x :: xs) debounceInit) := by
  have hstep : burst (x :: xs) (debounceInit : DebounceState α β)
      = burst xs (⟨some 0, 1, 1, [(0, 0, x)], [], []⟩ : DebounceState α β) := by
    show burst xs (debounceCall x (debounceInit : DebounceState α β)).2 = _
    simp [debounceCall, debounceInit, cancelFrame]
  have hb : burst (x :: xs) (debounceInit : DebounceState α β)
      = ⟨some xs.length, xs.length + 1, xs.length + 1,
         [(xs.length, xs.length, xs.getLastD x)], [], []⟩ := by
    rw [hstep]
    have h := burst_from_single (β := β) xs 0 0 x
    simpa using h
  rw [hb]
  refine ⟨rfl, rfl, ?_, ?_⟩
  · intro p v hpv
    simp [frameFire] at hpv
    exact hpv.1
  · simp [frameFire]

theorem setAttr_idem (n v : String) : ∀ l, setAttr n v (setAttr n v l) = setAttr n v l := by
  intro l
  induction l with
  | nil => simp [setAttr]
  | cons p rest ih =>
    obtain ⟨m, w⟩ := p
    by_cases h : m = n
    · subst h; simp [setAttr]
    · simp [setAttr, h, ih]

theorem setAttr_reset (n₁ v₁ n₂ v₂ : String) (hne : n₁ ≠ n₂) :
    ∀ l, setAttr n₁ v₁ (setAttr n₂ v₂ (setAttr n₁ v₁ l))
      = setAttr n₂ v₂ (setAttr n₁ v₁ l) := by
  intro l
  induction l with
  | nil =>
    simp [setAttr, hne, Ne.symm hne]
  | cons p rest ih =>
    obtain ⟨m, w⟩ := p
    by_cases h1 : m = n₁
    · subst h1
      simp [setAttr, hne, Ne.symm hne]
    · by_cases h2 : m = n₂
      · subst h2
        simp [setAttr, h1, hne, Ne.symm hne, setAttr_idem]
      · simp [setAttr, h1, h2, ih]

theorem prioritizeOne_idem (e : ImgElem) : prioritizeOne (prioritizeOne e) = prioritizeOne e := by
  have hne : "loading" ≠ "fetchpriority" := by decide
  simp only [prioritizeOne]
  rw [setAttr_reset _ _ _ _ hne, setAttr_idem]

/-- C9 counterexample: under the cross-element selector
`img:first-child, img[loading="eager"] + img` over two lazily-loading sibling
images, the first call prioritizes only the first image; the second call then
also matches the second image — its previous sibling now carries
`loading="eager"` — and mutates it, so calling twice does not leave the
document in the state of calling once. -/
theorem prioritizeImages_not_idempotent :
    prioritizeImages firstOrAfterEager (prioritizeImages firstOrAfterEager [lazyImg, lazyImg])
      ≠ prioritizeImages firstOrAfterEager [lazyImg, lazyImg] := by
  decide

/-- C9 amended: `prioritizeImages` is idempotent for every selector whose
matching depends only on the matched element's own state (`selDoc` agrees with
a per-element predicate `sel` everywhere), because the per-element update
writes constant values; selectors whose match for one element depends on other
elements' attributes are excluded (see the counterexample, where the code is
not idempotent).  With zero matches it does nothing (and, all operations being
total, cannot error). -/
theorem prioritizeImages_idem_elementwise (sel : ImgElem → Bool)
    (selDoc : List ImgElem → ℕ → Bool) (doc : List ImgElem)
    (hsel : ∀ (d : List ImgElem) (i : ℕ) (h : i < d.length), selDoc d i = sel (d.get ⟨i, h⟩)) :
    prioritizeImages selDoc (prioritizeImages selDoc doc) = prioritizeImages selDoc doc
    ∧ ((∀ (i : ℕ), i < doc.length → selDoc doc i = false) →
        prioritizeImages selDoc doc = doc) := by
  constructor
  · apply List.ext_get
    · simp [prioritizeImages]
    · intro n h₁ h₂
      have hn : n < doc.length := by
        simpa [prioritizeImages] using h₂
      have hval : (prioritizeImages selDoc doc).get ⟨n, h₂⟩
          = if sel (doc.get ⟨n, hn⟩) then prioritizeOne (doc.get ⟨n, hn⟩)
            else doc.get ⟨n, hn⟩ := by
        show (doc.mapIdx fun i e => if selDoc doc i then prioritizeOne e else e).get ⟨n, h₂⟩ = _
        rw [List.get_mapIdx doc _ n hn, hsel doc n hn]
      have houter : (prioritizeImages selDoc (prioritizeImages selDoc doc)).get ⟨n, h₁⟩
          = if sel ((prioritizeImages selDoc doc).get ⟨n, h₂⟩)
              then prioritizeOne ((prioritizeImages selDoc doc).get ⟨n, h₂⟩)
              else (prioritizeImages selDoc doc).get ⟨n, h₂⟩ := by
        show ((prioritizeImages selDoc doc).mapIdx
            fun i e => if selDoc (prioritizeImages selDoc doc) i then prioritizeOne e
              else e).get ⟨n, h₁⟩ = _
        rw [List.get_mapIdx (prioritizeImages selDoc doc) _ n h₂,
            hsel (prioritizeImages selDoc doc) n h₂]
      rw [houter, hval]
      simp only [List.get_eq_getElem]
      by_cases hs : sel doc[n]
      · by_cases hs2 : sel (prioritizeOne doc[n]) <;>
          simp [hs, hs2, prioritizeOne_idem]
      · simp [hs]
  · intro hz
    apply List.ext_get
    · simp [prioritizeImages]
    · intro n h₁ h₂
      show (doc.mapIdx fun i e => if selDoc doc i then prioritizeOne e else e).get ⟨n, h₁⟩
        = doc.get ⟨n, h₂⟩
      rw [List.get_mapIdx doc _ n h₂]
      simp [hz n h₂]

/-- Witness for the amended C9: a per-element selector matching images whose
`loading` property is `lazy` (so it no longer matches after prioritization),
applied through its document-level form, and the zero-match case. -/
theorem prioritizeImages_idem_elementwise_witness :
    prioritizeImages
        (fun d i => match d[i]? with
          | some e => decide (e.loadingProp = "lazy")
          | none => false)
        (prioritizeImages
          (fun d i => match d[i]? with
            | some e => decide (e.loadingProp = "lazy")
            | none => false) [lazyImg])
      = prioritizeImages
          (fun d i => match d[i]? with
            | some e => decide (e.loadingProp = "lazy")
            | none => false) [lazyImg]
    ∧ prioritizeImages (fun _ _ => false) [lazyImg] = [lazyImg] :=
  ⟨(prioritizeImages_idem_elementwise (fun e => decide (e.loadingProp = "lazy")) _ [lazyImg]
      (fun d i h => by simp [List.getElem?_eq_getElem h, List.get_eq_getElem])).1,
   (prioritizeImages_idem_elementwise (fun _ => false) (fun _ _ => false) [lazyImg]
      (fun _ _ _ => rfl)).2 (fun _ _ => rfl)⟩

/-- C10: every call of the patched `dl.push(...args)` returns `undefined`
synchronously (the original push result is discarded — it is never even
produced synchronously): the synchronous call leaves the log of original-push
invocations untouched and only registers a continuation; the original push
runs only when a later yield-resolution step executes that continuation. -/
theorem patchDatalayer_defers (args : List α) (s : DLState α) :
    (patchedPush args s).1 = none
    ∧ (patchedPush args s).2.originalCalls = s.originalCalls
    ∧ (patchedPush args s).2.scheduledConts = s.scheduledConts ++ [args]
    ∧ runDLCont (patchedPush args ⟨[], s.originalCalls⟩).2
        = ⟨[], s.originalCalls ++ [args]⟩ :=
  ⟨rfl, rfl, rfl, rfl⟩

/-- C8 (the code at the failing input): `prefetchResources` evaluates the
unbound identifier `url` and throws a `ReferenceError` (surfaced as a rejected
promise), inserting no prefetch link at all — whereas the spec-modelled
behaviour inserts one prefetch link per URL of `urls`. -/
theorem prefetchResources_reference_error :
    prefetchResources ["/hero.jpg", "/font.woff2"] []
      = ([], some (JsError.referenceError "url"))
    ∧ prefetchResourcesSpec ["/hero.jpg", "/font.woff2"] []
      = (["/hero.jpg", "/font.woff2"], none)
    ∧ prefetchResources ["/hero.jpg", "/font.woff2"] []
      ≠ prefetchResourcesSpec ["/hero.jpg", "/font.woff2"] [] := by
  refine ⟨rfl, rfl, ?_⟩
  intro h
  exact Option.noConfusion (congrArg Prod.snd h)

end AemCwv
